import Mathlib

/-!
Shallow embedding of the position/monitor lifecycle and exit-rule engine of
the clawed-trader repository (src/positions/manager.ts, src/core/orchestrator.ts,
src/config/index.ts).  JavaScript numbers are modelled as rationals, the
durable Store collections as lists, and the external collaborators (price
feed, swap aggregator, AI advisor, balances, clock) as explicit environment
parameters.  The in-place mutation of position objects during a stop-loss
pass is modelled by tagging each position with its object identity (its index
in the array at the start of the pass).
-/

namespace ClawedTrader

/-- A trailing stop-loss tier (config/index.ts `STOP_LOSS_TIERS` entries). -/
structure Tier where
  minProfitPercent : ℚ
  trailPercent : ℚ
deriving DecidableEq, Repr

/-- config/index.ts `STOP_LOSS_TIERS`: sorted descending by `minProfitPercent`. -/
def STOP_LOSS_TIERS : List Tier :=
  [⟨100, 5⟩, ⟨50, 10⟩, ⟨0, 20⟩]

/-- manager.ts `Position`. -/
structure Position where
  tokenAddress : String
  tokenSymbol : String
  tokenName : String
  entryPrice : ℚ
  currentPrice : ℚ
  highestPrice : ℚ
  quantity : String
  usdcInvested : String
  entryTimestamp : ℕ
  buyTxHash : String
  dexScreenerUrl : String
deriving DecidableEq, Repr

/-- manager.ts `TradeHistoryEntry.type`. -/
inductive TradeType
  | buy
  | sell
deriving DecidableEq, Repr

/-- manager.ts `TradeHistoryEntry`. -/
structure TradeHistoryEntry where
  type : TradeType
  tokenAddress : String
  tokenSymbol : String
  price : ℚ
  amount : String
  usdcAmount : String
  txHash : String
  timestamp : ℕ
  reason : Option String := none
  profitPercent : Option ℚ := none
deriving DecidableEq, Repr

/-- swap/executor.ts `SwapResult`. -/
structure SwapResult where
  success : Bool
  txHash : Option String := none
  buyAmount : Option String := none
  sellAmount : Option String := none
  error : Option String := none
deriving DecidableEq, Repr

/-- The module-level mutable state of manager.ts that the claims concern:
`positions`, `history` and `tradingPaused` (the blacklist collection is not
touched by any operation modelled here). -/
structure Store where
  positions : List Position
  history : List TradeHistoryEntry
  tradingPaused : Bool
deriving DecidableEq, Repr

/-- JavaScript `toLowerCase()` on the ASCII token addresses. -/
def lowercase (s : String) : String :=
  ⟨s.data.map Char.toLower⟩

/-- manager.ts line 161: `p.tokenAddress.toLowerCase() === tokenAddress.toLowerCase()`. -/
def matchesAddr (p : Position) (tokenAddress : String) : Bool :=
  lowercase p.tokenAddress == lowercase tokenAddress

/-- Lower-cased address, the case-insensitive identity of a position. -/
def addrKey (p : Position) : String :=
  lowercase p.tokenAddress

/-- manager.ts `addHistoryEntry`: push, then keep the last 100 entries
(`history.slice(-100)` whenever the length exceeds 100). -/
def addHistoryEntry (history : List TradeHistoryEntry) (entry : TradeHistoryEntry) :
    List TradeHistoryEntry :=
  let h := history ++ [entry]
  if 100 < h.length then h.drop (h.length - 100) else h

/-- The buy record appended by manager.ts `addPosition`. -/
def buyEntryOf (pos : Position) : TradeHistoryEntry :=
  { type := .buy
    tokenAddress := pos.tokenAddress
    tokenSymbol := pos.tokenSymbol
    price := pos.entryPrice
    amount := pos.quantity
    usdcAmount := pos.usdcInvested
    txHash := pos.buyTxHash
    timestamp := pos.entryTimestamp }

/-- manager.ts `addPosition`: unconditionally pushes the position, then
records a buy history entry. -/
def addPosition (s : Store) (pos : Position) : Store :=
  { s with
    positions := s.positions ++ [pos]
    history := addHistoryEntry s.history (buyEntryOf pos) }

/-- manager.ts `removePosition`, list level: `findIndex` on the
case-insensitive address, `-1` leaves the array untouched and returns
`undefined`, otherwise `splice(idx, 1)` removes exactly that element. -/
def removePositionList (ps : List Position) (tokenAddress : String) :
    Option Position × List Position :=
  match ps.findIdx? (fun p => matchesAddr p tokenAddress) with
  | none => (none, ps)
  | some idx => (ps[idx]?, ps.eraseIdx idx)

/-- manager.ts `removePosition` on the Store. -/
def removePosition (s : Store) (tokenAddress : String) : Option Position × Store :=
  let r := removePositionList s.positions tokenAddress
  (r.1, { s with positions := r.2 })

/-- manager.ts `getPosition`: first case-insensitive address match. -/
def getPosition (s : Store) (tokenAddress : String) : Option Position :=
  s.positions.find? (fun p => matchesAddr p tokenAddress)

/-- manager.ts `setPaused`. -/
def setPaused (s : Store) (paused : Bool) : Store :=
  { s with tradingPaused := paused }

-- ── Stop-loss engine ────────────────────────────────────────────────

/-- The tier scan inside manager.ts `computeStopPrice`: default trail 20,
first tier with `profitPercent >= tier.minProfitPercent` wins (`break`). -/
def findTrail (profitPercent : ℚ) : List Tier → ℚ
  | [] => 20
  | tier :: rest =>
    if tier.minProfitPercent ≤ profitPercent then tier.trailPercent
    else findTrail profitPercent rest

/-- Result record of manager.ts `computeStopPrice`. -/
structure StopInfo where
  stopPrice : ℚ
  trailPercent : ℚ
  profitPercent : ℚ
deriving DecidableEq, Repr

/-- manager.ts `computeStopPrice`. -/
def computeStopPrice (position : Position) : StopInfo :=
  let profitPercent :=
    (position.highestPrice - position.entryPrice) / position.entryPrice * 100
  let trailPercent := findTrail profitPercent STOP_LOSS_TIERS
  let stopPrice := position.highestPrice * (1 - trailPercent / 100)
  ⟨stopPrice, trailPercent, profitPercent⟩

-- ── evaluateStopLosses ──────────────────────────────────────────────

/-- External collaborators used by the sell paths of manager.ts:
`dryRun` is `config.dryRun`; `oracle` is the DexScreener price feed, keyed by
lower-cased token address (it returns `none` when no price is available);
`sell` is `sellAllToken`; `now` is `Date.now()`. -/
structure SwapEnv where
  dryRun : Bool
  oracle : String → Option ℚ
  sell : String → SwapResult
  now : ℕ

/-- manager.ts lines 258-263: refresh `currentPrice`, ratchet `highestPrice`
only when the fresh price strictly exceeds the stored one. -/
def updatePrices (pos : Position) (currentPrice : ℚ) : Position :=
  { pos with
    currentPrice := currentPrice
    highestPrice :=
      if pos.highestPrice < currentPrice then currentPrice else pos.highestPrice }

/-- One element of the `sold` array returned by `evaluateStopLosses`. -/
structure SoldRecord where
  position : Position
  result : SwapResult
  reason : String
deriving DecidableEq, Repr

/-- The reason string of a triggered trailing stop (the source interpolates
the trail and profit percentages into this message; the text suffices here
since no claim inspects it). -/
def stopLossReason : String := "Tiered trailing stop-loss triggered"

/-- State threaded through one stop-loss pass: the live `positions` array
(each element tagged with its object identity), the `history` collection and
the `sold` result array. -/
structure EvalState where
  live : List (ℕ × Position)
  history : List TradeHistoryEntry
  sold : List SoldRecord
deriving DecidableEq, Repr

/-- The `removePosition` call made from inside the stop-loss loop, acting on
the tagged live array: remove the first case-insensitive address match. -/
def removeLiveByAddr (live : List (ℕ × Position)) (tokenAddress : String) :
    List (ℕ × Position) :=
  match live.findIdx? (fun q => matchesAddr q.2 tokenAddress) with
  | none => live
  | some idx => live.eraseIdx idx

/-- The sell record appended by manager.ts lines 305-316 (reason "stop-loss"). -/
def sellHistEntry (pos : Position) (currentPrice : ℚ) (result : SwapResult)
    (now : ℕ) : TradeHistoryEntry :=
  { type := .sell
    tokenAddress := pos.tokenAddress
    tokenSymbol := pos.tokenSymbol
    price := currentPrice
    amount := pos.quantity
    usdcAmount := result.buyAmount.getD "0"
    txHash := result.txHash.getD ""
    timestamp := now
    reason := some "stop-loss"
    profitPercent := some ((currentPrice - pos.entryPrice) / pos.entryPrice * 100) }

/-- One iteration of the `for (const pos of [...positions])` loop of
manager.ts `evaluateStopLosses` (lines 248-327): missing price skips the
item; otherwise the position object is mutated in place (price refresh),
the stop is recomputed, and a triggered stop either records a simulated
success (dry-run: no Store mutation), or sells — a successful sell appends a
history entry and removes the position, a failed sell leaves it in place. -/
def evalStep (env : SwapEnv) (st : EvalState) (item : ℕ × Position) : EvalState :=
  match env.oracle (lowercase item.2.tokenAddress) with
  | none => st
  | some currentPrice =>
    let pos := updatePrices item.2 currentPrice
    let live := st.live.map (fun q => if q.1 = item.1 then (item.1, pos) else q)
    let info := computeStopPrice pos
    if currentPrice ≤ info.stopPrice then
      if env.dryRun then
        { st with
          live := live
          sold := st.sold ++ [⟨pos, { success := true }, stopLossReason⟩] }
      else
        let result := env.sell item.2.tokenAddress
        if result.success then
          { live := removeLiveByAddr live item.2.tokenAddress
            history := addHistoryEntry st.history
              (sellHistEntry pos currentPrice result env.now)
            sold := st.sold ++ [⟨pos, result, stopLossReason⟩] }
        else
          { st with live := live }
    else
      { st with live := live }

/-- Tag every position with its index, the object identity used to model the
in-place mutation of the shared array elements. -/
def tagFrom : ℕ → List Position → List (ℕ × Position)
  | _, [] => []
  | n, p :: ps => (n, p) :: tagFrom (n + 1) ps

/-- The whole loop of `evaluateStopLosses` over the snapshot copy. -/
def evalLoop (env : SwapEnv) (items : List (ℕ × Position)) (st : EvalState) :
    EvalState :=
  items.foldl (evalStep env) st

/-- manager.ts `evaluateStopLosses`: early return on an empty collection,
otherwise iterate the snapshot and return the updated Store plus the sold
records. -/
def evaluateStopLosses (env : SwapEnv) (s : Store) : Store × List SoldRecord :=
  if s.positions.isEmpty then (s, [])
  else
    let snapshot := tagFrom 0 s.positions
    let final := evalLoop env snapshot ⟨snapshot, s.history, []⟩
    ({ s with positions := final.live.map Prod.snd, history := final.history },
     final.sold)

-- ── forceSell ───────────────────────────────────────────────────────

/-- The sell record appended by manager.ts `forceSell` (reason "manual");
`price: price ?? 0` keeps a zero price, while `price ? … : 0` treats both a
missing and a zero price as no profit information. -/
def manualSellEntry (pos : Position) (price : Option ℚ) (result : SwapResult)
    (now : ℕ) : TradeHistoryEntry :=
  { type := .sell
    tokenAddress := pos.tokenAddress
    tokenSymbol := pos.tokenSymbol
    price := price.getD 0
    amount := pos.quantity
    usdcAmount := result.buyAmount.getD "0"
    txHash := result.txHash.getD ""
    timestamp := now
    reason := some "manual"
    profitPercent := some (match price with
      | some p => if p = 0 then 0 else (p - pos.entryPrice) / pos.entryPrice * 100
      | none => 0) }

/-- manager.ts `forceSell`: unknown address returns `null`; in dry-run the
position is removed and a simulated success returned without any history
append; live mode sells, and on success appends the manual sell record and
then removes the position. -/
def forceSell (env : SwapEnv) (s : Store) (tokenAddress : String) :
    Option (Position × SwapResult) × Store :=
  match getPosition s tokenAddress with
  | none => (none, s)
  | some pos =>
    let price := env.oracle (lowercase tokenAddress)
    if env.dryRun then
      (some (pos, { success := true }), (removePosition s tokenAddress).2)
    else
      let result := env.sell tokenAddress
      if result.success then
        let s1 := { s with
          history := addHistoryEntry s.history
            (manualSellEntry pos price result env.now) }
        (some (pos, result), (removePosition s1 tokenAddress).2)
      else
        (some (pos, result), s)

-- ── Orchestrator (core/orchestrator.ts tradingCycle) ────────────────

/-- One entry of the AI portfolio review's `positionAdvice` array
(ai/analyst.ts); the orchestrator compares `action` with the string
`"sell"`. -/
structure PositionAdvice where
  symbol : String
  action : String
  reasoning : String
deriving DecidableEq, Repr

/-- One scanner candidate (scanner/dexscreener.ts), restricted to the fields
the buy path of the orchestrator reads. -/
structure Candidate where
  address : String
  symbol : String
  name : String
  priceUsd : ℚ
  dexScreenerUrl : String
deriving DecidableEq, Repr

/-- One AI verdict on a candidate (ai/analyst.ts `analyzeTokenCandidates`). -/
structure Verdict where
  address : String
  symbol : String
  action : String
  confidence : ℚ
  riskLevel : String
  suggestedAllocPercent : Option ℚ
deriving DecidableEq, Repr

/-- The external collaborators and configuration a trading cycle consumes:
the swap environment, the AI review advice (`none` both when AI is disabled
via `aiEnabled` and when `reviewPortfolio` returns null), the configured
limits, the USDC balance read at the entry gate, the scan candidates, the AI
verdicts, the balance re-reads inside the buy loop (indexed by how many buy
attempts came before), the buy transaction outcomes, and the clock. -/
structure CycleEnv where
  swap : SwapEnv
  aiEnabled : Bool
  advice : Option (List PositionAdvice)
  maxPositions : Int
  minUsdcBalance : ℚ
  usdcBalance : ℚ
  tradePercent : ℚ
  candidates : List Candidate
  verdicts : List Verdict
  buyBalances : ℕ → ℚ
  buyResult : String → SwapResult
  buyNow : ℕ

/-- Step 3 of orchestrator.ts `tradingCycle` (lines 112-150): when AI is
enabled and the review returns advice, every `"sell"` recommendation whose
symbol matches a position in the snapshot taken after stop-loss evaluation
triggers a `forceSell` of that position's address. -/
def aiReviewPhase (env : CycleEnv) (s : Store) : Store :=
  if env.aiEnabled then
    match env.advice with
    | none => s
    | some adviceList =>
      let currentPositions := s.positions
      adviceList.foldl
        (fun st adv =>
          if adv.action == "sell" then
            match currentPositions.find? (fun p => p.tokenSymbol == adv.symbol) with
            | some pos => (forceSell env.swap st pos.tokenAddress).2
            | none => st
          else st)
        s
  else s

/-- orchestrator.ts lines 210-212: keep verdicts with action `"buy"`,
confidence at least 55 and a risk level other than `"extreme"`, sorted by
descending confidence (stable sort). -/
def approvedBuys (verdicts : List Verdict) : List Verdict :=
  (verdicts.filter
      (fun v => v.action == "buy" && decide (55 ≤ v.confidence) && v.riskLevel != "extreme")).mergeSort
    (fun a b => decide (b.confidence ≤ a.confidence))

/-- The position record built after a successful buy (orchestrator.ts lines
296-314): the entry price falls back from the candidate's price to a fresh
quote and then to 0 (JavaScript `||` also skips a zero price). -/
def newPositionOf (env : CycleEnv) (c : Candidate) (buyAmount : ℚ)
    (result : SwapResult) : Position :=
  let price :=
    if c.priceUsd ≠ 0 then c.priceUsd
    else (env.swap.oracle (lowercase c.address)).getD 0
  { tokenAddress := c.address
    tokenSymbol := c.symbol
    tokenName := c.name
    entryPrice := price
    currentPrice := price
    highestPrice := price
    quantity := result.buyAmount.getD "0"
    usdcInvested := toString buyAmount
    entryTimestamp := env.buyNow
    buyTxHash := result.txHash.getD ""
    dexScreenerUrl := c.dexScreenerUrl }

/-- The buy loop of orchestrator.ts (lines 259-356): a verdict without a
matching candidate is skipped; the USDC balance is re-read before each buy
and depletion below the minimum breaks out of the loop; the allocation comes
from the verdict or the configured trade percent; a successful buy records
the position (`addPosition`).  The second argument counts the balance
re-reads performed so far. -/
def buyLoop (env : CycleEnv) : List Verdict → ℕ → Store → Store
  | [], _, st => st
  | v :: rest, k, st =>
    match env.candidates.find? (fun c => lowercase c.address == lowercase v.address) with
    | none => buyLoop env rest k st
    | some c =>
      let currentUsdc := env.buyBalances k
      if currentUsdc < env.minUsdcBalance then st
      else
        let allocPercent := v.suggestedAllocPercent.getD env.tradePercent
        let buyAmount := currentUsdc * (allocPercent / 100)
        let result := env.buyResult c.address
        let st1 :=
          if result.success then addPosition st (newPositionOf env c buyAmount result)
          else st
        buyLoop env rest (k + 1) st1

/-- Steps 5-6 of orchestrator.ts `tradingCycle` after the entry gate: empty
scan or no approved verdict ends the cycle; otherwise the approved verdicts
are bought up to the available position slots. -/
def buyPhase (env : CycleEnv) (s : Store) (availableSlots : Int) : Store :=
  if env.candidates.isEmpty then s
  else
    let approved := approvedBuys env.verdicts
    if approved.isEmpty then s
    else buyLoop env (approved.take availableSlots.toNat) 0 s

/-- Which entry-gate check fires first.  `cooldownCheck` exists only for the
comparison with the specified gate; the code's gate never produces it. -/
inductive GateCheck
  | pausedCheck
  | cooldownCheck
  | balanceCheck
  | capacityCheck
  | proceed
deriving DecidableEq, Repr

/-- The sequence of early returns guarding the buy scan in orchestrator.ts
`tradingCycle` (lines 152-180), in source order: paused flag, available
position-count capacity (`maxPositions - openCount <= 0`), minimum USDC
balance. -/
def entryGate (env : CycleEnv) (s2 : Store) : GateCheck :=
  if s2.tradingPaused then .pausedCheck
  else if env.maxPositions - (s2.positions.length : Int) ≤ 0 then .capacityCheck
  else if env.usdcBalance < env.minUsdcBalance then .balanceCheck
  else .proceed

/-- Modelled from the spec: the entry gating order claimed in §4.4 — global
pause flag, then re-entry cooldown, then minimum-balance floor, then
available position-count capacity; the first failing check aborts.  (No
re-entry cooldown state exists in the sources under src/, so the claimed
cooldown condition is taken as an abstract boolean input.) -/
def claimedEntryGate (paused cooldownActive : Bool) (usdcBalance minUsdcBalance : ℚ)
    (maxPositions : Int) (openCount : ℕ) : GateCheck :=
  if paused then .pausedCheck
  else if cooldownActive then .cooldownCheck
  else if usdcBalance < minUsdcBalance then .balanceCheck
  else if maxPositions - (openCount : Int) ≤ 0 then .capacityCheck
  else .proceed

/-- orchestrator.ts `tradingCycle`: the ETH balance check (step 1) only reads
a balance and notifies, so it has no Store effect; then stop-loss evaluation
(step 2, with notifications), the AI portfolio review (step 3), and the
gated buy scan (steps 4-6). -/
def tradingCycle (env : CycleEnv) (s : Store) : Store :=
  let s1 := (evaluateStopLosses env.swap s).1
  let s2 := aiReviewPhase env s1
  match entryGate env s2 with
  | .proceed => buyPhase env s2 (env.maxPositions - (s2.positions.length : Int))
  | _ => s2

-- ── Scheduler overlap guard (orchestrator.ts lines 60-67 and 357-365) ──

/-- The observable events of the cycle scheduler: a timer firing
(node-cron invoking `tradingCycle`) and the completion of a cycle's async
work (the `finally` block, reached on success and on error alike). -/
inductive SchedEvent
  | fire
  | finish
deriving DecidableEq, Repr

/-- Scheduler state: the module-level `isRunning` flag, plus instrumentation
counting the cycles currently executing, the cycles ever started, and the
timer firings observed. -/
structure SchedState where
  running : Bool
  active : ℕ
  started : ℕ
  fires : ℕ
deriving DecidableEq, Repr

/-- Initial scheduler state (`isRunning = false`). -/
def schedInit : SchedState :=
  ⟨false, 0, 0, 0⟩

/-- One scheduler transition.  A firing while `isRunning` returns
immediately (nothing is queued — the state is unchanged apart from the
firing count); otherwise the guard is taken and a cycle starts.  The
check-then-set is a single synchronous prefix of `tradingCycle`, atomic on
the JavaScript event loop.  A finish is the `finally` block: it clears
`isRunning` whether the cycle succeeded or threw. -/
def schedStep (s : SchedState) : SchedEvent → SchedState
  | .fire =>
    if s.running then { s with fires := s.fires + 1 }
    else
      { s with
        running := true
        active := s.active + 1
        started := s.started + 1
        fires := s.fires + 1 }
  | .finish => { s with running := false, active := s.active - 1 }

/-- The scheduler state after a sequence of events from startup. -/
def schedRun (events : List SchedEvent) : SchedState :=
  events.foldl schedStep schedInit

-- ── Shared helper lemmas ────────────────────────────────────────────

/-- The tier scan returns the first tier whose threshold is at or below the
profit, in list order, with default 20. -/
theorem findTrail_eq_find (pp : ℚ) (tiers : List Tier) :
    findTrail pp tiers =
      ((tiers.find? (fun t => decide (t.minProfitPercent ≤ pp))).map
        Tier.trailPercent).getD 20 := by
  induction tiers with
  | nil => rfl
  | cons t ts ih =>
    by_cases h : t.minProfitPercent ≤ pp
    · simp [findTrail, h]
    · simp [findTrail, h, ih]

theorem findIdx_append_cons {α : Type} (P : α → Bool) (post : List α) (p : α)
    (hp : P p = true) :
    ∀ (pre : List α) (i : ℕ), (∀ q ∈ pre, P q = false) →
      List.findIdx? P (pre ++ p :: post) i = some (i + pre.length) := by
  intro pre
  induction pre with
  | nil => intro i _; simp [hp]
  | cons x xs ih =>
    intro i hall
    have hx : P x = false := hall x (by simp)
    simp only [List.cons_append, List.findIdx?_cons, hx, Bool.false_eq_true,
      if_false]
    rw [ih (i + 1) (fun q hq => hall q (by simp [hq]))]
    simp [List.length_cons]
    omega

theorem eraseIdx_append_cons {α : Type} (p : α) (post : List α) :
    ∀ pre : List α, (pre ++ p :: post).eraseIdx pre.length = pre ++ post := by
  intro pre
  induction pre with
  | nil => simp
  | cons x xs ih => simp [ih]

theorem getElem_append_cons {α : Type} (p : α) (post : List α) (pre : List α) :
    (pre ++ p :: post)[pre.length]? = some p := by
  rw [List.getElem?_append_right (Nat.le_refl _)]
  simp

-- ── C9 ──────────────────────────────────────────────────────────────

/-- C9: after every append the trade-history collection holds at most 100
entries (exactly `min (n+1) 100`), and the result is a suffix of the old
collection with the new entry appended — so entries are only dropped from
the oldest end and no retained entry is modified. -/
theorem C9_history_cap (h : List TradeHistoryEntry) (e : TradeHistoryEntry) :
    (addHistoryEntry h e).length = min (h.length + 1) 100 ∧
    (addHistoryEntry h e).IsSuffix (h ++ [e]) := by
  unfold addHistoryEntry
  simp only []
  split
  · refine ⟨?_, List.drop_suffix _ _⟩
    simp only [List.length_drop, List.length_append, List.length_singleton] at *
    omega
  · refine ⟨?_, List.suffix_refl _⟩
    simp only [List.length_append, List.length_singleton] at *
    omega

-- ── C2 ──────────────────────────────────────────────────────────────

/-- C2: for entryPrice > 0, `computeStopPrice` returns the profit percent
`(highestPrice - entryPrice) / entryPrice * 100`, the trail percent of the
first tier of the supplied list whose threshold is at or below the profit
(default 20), and `stopPrice = highestPrice * (1 - trailPercent/100)`; with
the configured tiers, entry 1.0 and peak 2.5 this gives trail 5 and stop
price 2.375. -/
theorem C2_computeStopPrice_spec (pos : Position) (_hentry : 0 < pos.entryPrice) :
    (computeStopPrice pos).profitPercent =
        (pos.highestPrice - pos.entryPrice) / pos.entryPrice * 100 ∧
    (computeStopPrice pos).trailPercent =
        ((STOP_LOSS_TIERS.find?
            (fun t => decide (t.minProfitPercent ≤ (computeStopPrice pos).profitPercent))).map
          Tier.trailPercent).getD 20 ∧
    (computeStopPrice pos).stopPrice =
        pos.highestPrice * (1 - (computeStopPrice pos).trailPercent / 100) ∧
    (pos.entryPrice = 1 → pos.highestPrice = 5/2 →
      (computeStopPrice pos).trailPercent = 5 ∧
        (computeStopPrice pos).stopPrice = 19/8) := by
  refine ⟨rfl, findTrail_eq_find _ _, rfl, ?_⟩
  intro h1 h2
  constructor
  · show findTrail _ _ = _
    rw [h1, h2]
    norm_num [findTrail, STOP_LOSS_TIERS]
  · show pos.highestPrice * _ = _
    rw [h1, h2]
    norm_num [findTrail, STOP_LOSS_TIERS]

/-- Position fixture for the C2 witness: entry 1.0, peak 2.5. -/
def c2Pos : Position :=
  { tokenAddress := "0xAB"
    tokenSymbol := "AAA"
    tokenName := "Token A"
    entryPrice := 1
    currentPrice := 2
    highestPrice := 5/2
    quantity := "1000"
    usdcInvested := "10"
    entryTimestamp := 0
    buyTxHash := "0xbuy"
    dexScreenerUrl := "" }

theorem C2_computeStopPrice_spec_witness :
    (computeStopPrice c2Pos).trailPercent = 5 ∧
      (computeStopPrice c2Pos).stopPrice = 19/8 :=
  (C2_computeStopPrice_spec c2Pos (by norm_num [c2Pos])).2.2.2 rfl rfl

-- ── C10 ─────────────────────────────────────────────────────────────

/-- C10: with no case-insensitive address match `removePosition` returns
`undefined` and leaves the collection unchanged; with a match it removes
exactly the first matching position, returns it, and leaves every other
position (and their order) unchanged. -/
theorem C10_removePosition_frame (ps : List Position) (tokenAddress : String) :
    ((∀ p ∈ ps, matchesAddr p tokenAddress = false) →
        removePositionList ps tokenAddress = (none, ps)) ∧
    (∀ pre p post, ps = pre ++ p :: post →
        (∀ q ∈ pre, matchesAddr q tokenAddress = false) →
        matchesAddr p tokenAddress = true →
        removePositionList ps tokenAddress = (some p, pre ++ post)) := by
  constructor
  · intro hall
    unfold removePositionList
    rw [List.findIdx?_eq_none_iff.mpr hall]
  · intro pre p post hps hpre hp
    subst hps
    unfold removePositionList
    rw [findIdx_append_cons (fun q => matchesAddr q tokenAddress) post p hp pre 0 hpre]
    simp only [Nat.zero_add]
    rw [getElem_append_cons, eraseIdx_append_cons]

/-- Position fixture: same address as `c2Pos` up to case. -/
def otherPos : Position :=
  { c2Pos with tokenAddress := "0xCD", tokenSymbol := "CCC" }

theorem C10_removePosition_frame_witness :
    removePositionList [otherPos, c2Pos] "0xStranger" = (none, [otherPos, c2Pos]) ∧
    removePositionList [otherPos, c2Pos] "0xab" = (some c2Pos, [otherPos]) := by
  constructor
  · exact (C10_removePosition_frame [otherPos, c2Pos] "0xStranger").1 (by decide)
  · exact (C10_removePosition_frame [otherPos, c2Pos] "0xab").2 [otherPos] c2Pos []
      rfl (by decide) (by decide)

-- ── C7 ──────────────────────────────────────────────────────────────

/-- Position fixture with integer-valued prices (entry 1, peak 2). -/
def plainPos : Position :=
  { c2Pos with currentPrice := 1, highestPrice := 2 }

/-- Store fixture holding one open position at address `0xAB`. -/
def c7Store : Store :=
  { positions := [plainPos], history := [], tradingPaused := false }

/-- A second buy of the same token, address differing only in case. -/
def c7NewPos : Position :=
  { plainPos with tokenAddress := "0xab", buyTxHash := "0xbuy2" }

/-- C7 counterexample: `addPosition` appends unconditionally, so adding a
position for an address that already has an open position produces two
entries whose addresses match case-insensitively. -/
theorem C7_addPosition_duplicate :
    ((addPosition c7Store c7NewPos).positions.filter
        (fun p => matchesAddr p "0xab")).length = 2 := by
  decide

/-- C7 amended: the Store itself does not enforce the at-most-one-per-address
invariant; it is preserved exactly when callers only add positions whose
case-insensitive address is not already held (which the orchestrator's scan
guarantees by excluding held tokens from the candidate set). -/
theorem C7_addPosition_fresh_unique (s : Store) (pos : Position)
    (hnd : (s.positions.map addrKey).Nodup)
    (hfresh : addrKey pos ∉ s.positions.map addrKey) :
    ((addPosition s pos).positions.map addrKey).Nodup := by
  simp only [addPosition, List.map_append, List.map_cons, List.map_nil]
  rw [List.nodup_append]
  exact ⟨hnd, List.nodup_singleton _, by
    intro a ha hb
    simp only [List.mem_singleton] at hb
    exact hfresh (hb ▸ ha)⟩

theorem C7_addPosition_fresh_unique_witness :
    ((addPosition c7Store otherPos).positions.map addrKey).Nodup :=
  C7_addPosition_fresh_unique c7Store otherPos (by decide) (by decide)

-- ── C4 ──────────────────────────────────────────────────────────────

theorem schedStep_inv (st : SchedState) (e : SchedEvent)
    (h1 : st.active ≤ 1) (h2 : st.running = true ↔ st.active = 1) :
    (schedStep st e).active ≤ 1 ∧
      ((schedStep st e).running = true ↔ (schedStep st e).active = 1) := by
  cases e with
  | fire =>
    by_cases hr : st.running
    · constructor
      · simpa [schedStep, hr] using h1
      · simpa [schedStep, hr] using h2
    · have : st.active = 0 := by
        rcases Nat.lt_or_ge st.active 1 with h | h
        · omega
        · exact absurd (h2.mpr (by omega)) hr
      simp [schedStep, hr, this]
  | finish =>
    constructor
    · simp only [schedStep]
      omega
    · simp only [schedStep]
      constructor
      · intro hc
        exact absurd hc (by simp)
      · intro hc
        omega

theorem schedRun_foldl_inv (events : List SchedEvent) :
    ∀ st : SchedState, st.active ≤ 1 → (st.running = true ↔ st.active = 1) →
      (events.foldl schedStep st).active ≤ 1 ∧
        ((events.foldl schedStep st).running = true ↔
          (events.foldl schedStep st).active = 1) := by
  induction events with
  | nil => exact fun st h1 h2 => ⟨h1, h2⟩
  | cons e rest ih =>
    intro st h1 h2
    have h := schedStep_inv st e h1 h2
    simpa [List.foldl_cons] using ih (schedStep st e) h.1 h.2

/-- C4: a timer firing during a running cycle performs no work and queues
nothing (the state is unchanged apart from the firing count); consequently
in every reachable scheduler state at most one cycle is executing (and the
running flag tracks it exactly); finishing a cycle — the `finally` block,
reached on success and on error — clears the running flag; and once the
flag is cleared a later firing starts a cycle. -/
theorem C4_overlap_guard :
    (∀ events : List SchedEvent,
      (schedRun events).active ≤ 1 ∧
        ((schedRun events).running = true ↔ (schedRun events).active = 1)) ∧
    (∀ s : SchedState, s.running = true →
      schedStep s .fire = { s with fires := s.fires + 1 }) ∧
    (∀ s : SchedState, (schedStep s .finish).running = false) ∧
    (∀ s : SchedState, s.running = false →
      (schedStep s .fire).running = true ∧
        (schedStep s .fire).started = s.started + 1) := by
  refine ⟨?_, ?_, ?_, ?_⟩
  · intro events
    exact schedRun_foldl_inv events schedInit (by simp [schedInit]) (by simp [schedInit])
  · intro s hs
    simp [schedStep, hs]
  · intro s
    simp [schedStep]
  · intro s hs
    simp [schedStep, hs]

theorem C4_overlap_guard_witness :
    ((schedRun [.fire, .fire, .finish, .fire]).active ≤ 1) ∧
    schedStep ⟨true, 1, 1, 1⟩ .fire = ⟨true, 1, 1, 2⟩ ∧
    (schedStep ⟨true, 1, 1, 2⟩ .finish).running = false ∧
    (schedStep ⟨false, 0, 1, 2⟩ .fire).started = 2 :=
  ⟨(C4_overlap_guard.1 [.fire, .fire, .finish, .fire]).1,
   C4_overlap_guard.2.1 ⟨true, 1, 1, 1⟩ rfl,
   C4_overlap_guard.2.2.1 ⟨true, 1, 1, 2⟩,
   (C4_overlap_guard.2.2.2 ⟨false, 0, 1, 2⟩ rfl).2⟩

-- ── C8 ──────────────────────────────────────────────────────────────

/-- Failing swap result used by fixtures. -/
def failedSwap : SwapResult :=
  { success := false }

/-- Cycle environment fixture: five-position cap, balance 5 below the
minimum 10, no AI, no candidates. -/
def c8Env : CycleEnv :=
  { swap := { dryRun := true, oracle := fun _ => none,
              sell := fun _ => failedSwap, now := 0 }
    aiEnabled := false
    advice := none
    maxPositions := 5
    minUsdcBalance := 10
    usdcBalance := 5
    tradePercent := 10
    candidates := []
    verdicts := []
    buyBalances := fun _ => 0
    buyResult := fun _ => failedSwap
    buyNow := 0 }

/-- Store fixture with five open positions and low balance context. -/
def c8Store : Store :=
  { positions := List.replicate 5 plainPos, history := [], tradingPaused := false }

/-- C8 counterexample: with capacity exhausted and the balance below the
minimum, the code's first failing check is the capacity check, while the
claimed order (pause, cooldown, minimum balance, capacity) fails at the
minimum-balance check; the gates disagree. -/
theorem C8_gate_order_counterexample :
    entryGate c8Env c8Store ≠
      claimedEntryGate c8Store.tradingPaused false c8Env.usdcBalance
        c8Env.minUsdcBalance c8Env.maxPositions c8Store.positions.length := by
  decide

/-- C8 amended: the checks before any automated buy run in this order —
global pause flag, then available position-count capacity
(`maxPositions - openCount <= 0`), then minimum-balance floor; no re-entry
cooldown check exists in the cycle; the first failing check ends the cycle
with no further Store effect (the post-exit store is returned unchanged). -/
theorem C8_entry_gate_order (env : CycleEnv) (s s2 : Store)
    (hs2 : s2 = aiReviewPhase env (evaluateStopLosses env.swap s).1) :
    (entryGate env s2 = .pausedCheck ↔ s2.tradingPaused = true) ∧
    (entryGate env s2 = .capacityCheck ↔
      s2.tradingPaused = false ∧
        env.maxPositions - (s2.positions.length : Int) ≤ 0) ∧
    (entryGate env s2 = .balanceCheck ↔
      s2.tradingPaused = false ∧
        0 < env.maxPositions - (s2.positions.length : Int) ∧
        env.usdcBalance < env.minUsdcBalance) ∧
    entryGate env s2 ≠ .cooldownCheck ∧
    (entryGate env s2 ≠ .proceed → tradingCycle env s = s2) := by
  refine ⟨?_, ?_, ?_, ?_, ?_⟩
  · unfold entryGate
    split
    · simp_all
    · split
      · simp_all
      · split <;> simp_all
  · unfold entryGate
    split
    · simp_all
    · split
      · simp_all
      · split <;> simp_all
  · unfold entryGate
    split
    · simp_all
    · split
      · constructor
        · intro hc
          cases hc
        · intro hc
          omega
      · split <;> simp_all
  · unfold entryGate
    split
    · simp
    · split
      · simp
      · split <;> simp
  · intro hg
    simp only [tradingCycle]
    rw [← hs2]
    rcases he : entryGate env s2 with _ | _ | _ | _ | _ <;> simp_all

theorem C8_entry_gate_order_witness :
    entryGate c8Env c8Store = .capacityCheck ∧
      tradingCycle c8Env c8Store = c8Store := by
  refine ⟨by decide, ?_⟩
  exact (C8_entry_gate_order c8Env c8Store c8Store (by decide)).2.2.2.2 (by decide)

-- ── Single-position evaluation lemmas ───────────────────────────────

theorem matchesAddr_updatePrices (p : Position) (pr : ℚ) :
    matchesAddr (updatePrices p pr) p.tokenAddress = true := by
  simp [matchesAddr, updatePrices]

theorem evalSingle_dry (env : SwapEnv) (s : Store) (p : Position) (pr : ℚ)
    (hdry : env.dryRun = true) (hp : s.positions = [p])
    (hor : env.oracle (lowercase p.tokenAddress) = some pr)
    (hstop : pr ≤ (computeStopPrice (updatePrices p pr)).stopPrice) :
    evaluateStopLosses env s =
      ({ s with positions := [updatePrices p pr] },
        [⟨updatePrices p pr, { success := true }, stopLossReason⟩]) := by
  unfold evaluateStopLosses evalLoop
  rw [hp]
  simp only [List.isEmpty_cons, Bool.false_eq_true, if_false, tagFrom,
    List.foldl_cons, List.foldl_nil]
  unfold evalStep
  simp only [hor]
  rw [if_pos hstop, if_pos hdry]
  simp

theorem evalSingle_live (env : SwapEnv) (s : Store) (p : Position) (pr : ℚ)
    (hdry : env.dryRun = false) (hp : s.positions = [p])
    (hor : env.oracle (lowercase p.tokenAddress) = some pr)
    (hsucc : (env.sell p.tokenAddress).success = true)
    (hstop : pr ≤ (computeStopPrice (updatePrices p pr)).stopPrice) :
    evaluateStopLosses env s =
      ({ s with
          positions := []
          history := addHistoryEntry s.history
            (sellHistEntry (updatePrices p pr) pr (env.sell p.tokenAddress) env.now) },
        [⟨updatePrices p pr, env.sell p.tokenAddress, stopLossReason⟩]) := by
  unfold evaluateStopLosses evalLoop
  rw [hp]
  simp only [List.isEmpty_cons, Bool.false_eq_true, if_false, tagFrom,
    List.foldl_cons, List.foldl_nil]
  unfold evalStep
  simp only [hor]
  rw [if_pos hstop, hdry]
  simp only [Bool.false_eq_true, if_false, hsucc, if_true]
  simp [removeLiveByAddr, matchesAddr_updatePrices]

theorem evalSingle_hold (env : SwapEnv) (s : Store) (p : Position) (pr : ℚ)
    (hp : s.positions = [p])
    (hor : env.oracle (lowercase p.tokenAddress) = some pr)
    (hstop : ¬ pr ≤ (computeStopPrice (updatePrices p pr)).stopPrice) :
    evaluateStopLosses env s =
      ({ s with positions := [updatePrices p pr] }, []) := by
  unfold evaluateStopLosses evalLoop
  rw [hp]
  simp only [List.isEmpty_cons, Bool.false_eq_true, if_false, tagFrom,
    List.foldl_cons, List.foldl_nil]
  unfold evalStep
  simp only [hor]
  rw [if_neg hstop]
  simp

-- ── C1 ──────────────────────────────────────────────────────────────

/-- Swap environment fixture for dry-run versus live comparison: the price
feed reports 1 (below the stop of 1.9 for entry 1, peak 2), and the swap
collaborator reports success. -/
def c1Env (dry : Bool) : SwapEnv :=
  { dryRun := dry
    oracle := fun _ => some 1
    sell := fun _ => { success := true, txHash := some "0xsell", buyAmount := some "42" }
    now := 99 }

theorem c1_stop_triggered :
    (1 : ℚ) ≤ (computeStopPrice (updatePrices plainPos 1)).stopPrice := by
  norm_num [computeStopPrice, updatePrices, findTrail, STOP_LOSS_TIERS, plainPos,
    c2Pos]

/-- C1 counterexample: on the same one-position store and the same
price/swap collaborators, a dry-run stop-loss sell that reports a simulated
success leaves the position in place and appends nothing to the trade
history, while a live successful sell removes the position and appends a
history entry — the Store mutations are not identical. -/
theorem C1_dry_live_mutations_differ :
    (evaluateStopLosses (c1Env true) c7Store).1.positions ≠ [] ∧
    (evaluateStopLosses (c1Env true) c7Store).1.history = [] ∧
    ((evaluateStopLosses (c1Env true) c7Store).2.map
        (fun r => r.result.success)).all id = true ∧
    (evaluateStopLosses (c1Env false) c7Store).1.positions = [] ∧
    (evaluateStopLosses (c1Env false) c7Store).1.history ≠ [] := by
  have hdry := evalSingle_dry (c1Env true) c7Store plainPos 1 rfl rfl rfl
    c1_stop_triggered
  have hlive := evalSingle_live (c1Env false) c7Store plainPos 1 rfl rfl rfl rfl
    c1_stop_triggered
  rw [hdry, hlive]
  refine ⟨by simp, rfl, by simp, rfl, ?_⟩
  simp [addHistoryEntry, c7Store]

/-- C1 amended: dry-run and live results are not treated identically for
state-mutation purposes.  For an exit-engine stop-loss sell in dry-run, a
simulated success is reported but the Store is mutated only by the price
refresh: the position is not removed and no history entry is appended.  For
a manual force-sell in dry-run, the position is removed exactly as for a
live successful sell, but no trade-history entry is appended. -/
theorem C1_dry_run_mutations (env : SwapEnv) (s : Store) :
    (∀ p pr, env.dryRun = true → s.positions = [p] →
      env.oracle (lowercase p.tokenAddress) = some pr →
      pr ≤ (computeStopPrice (updatePrices p pr)).stopPrice →
      (evaluateStopLosses env s).1.positions = [updatePrices p pr] ∧
      (evaluateStopLosses env s).1.history = s.history ∧
      (evaluateStopLosses env s).2 =
        [⟨updatePrices p pr, { success := true }, stopLossReason⟩]) ∧
    (∀ tokenAddress pos, env.dryRun = true →
      getPosition s tokenAddress = some pos →
      forceSell env s tokenAddress =
        (some (pos, { success := true }), (removePosition s tokenAddress).2) ∧
      (forceSell env s tokenAddress).2.history = s.history) := by
  constructor
  · intro p pr hdry hp hor hstop
    rw [evalSingle_dry env s p pr hdry hp hor hstop]
    exact ⟨rfl, rfl, rfl⟩
  · intro tokenAddress pos hdry hget
    unfold forceSell
    rw [hget]
    simp [hdry, removePosition]

theorem C1_dry_run_mutations_witness :
    (evaluateStopLosses (c1Env true) c7Store).1.positions =
        [updatePrices plainPos 1] ∧
    (evaluateStopLosses (c1Env true) c7Store).1.history = [] ∧
    forceSell (c1Env true) c7Store "0xab" =
      (some (plainPos, { success := true }),
        (removePosition c7Store "0xab").2) := by
  have h1 := (C1_dry_run_mutations (c1Env true) c7Store).1 plainPos 1
    rfl rfl rfl c1_stop_triggered
  have h2 := ((C1_dry_run_mutations (c1Env true) c7Store).2 "0xab" plainPos
    rfl (by decide)).1
  exact ⟨h1.1, h1.2.1, h2⟩

-- ── C3 ──────────────────────────────────────────────────────────────

theorem eval_preserves_paused (env : SwapEnv) (s : Store) :
    (evaluateStopLosses env s).1.tradingPaused = s.tradingPaused := by
  unfold evaluateStopLosses
  split <;> rfl

theorem removePosition_preserves_paused (s : Store) (a : String) :
    (removePosition s a).2.tradingPaused = s.tradingPaused := rfl

theorem forceSell_preserves_paused (env : SwapEnv) (s : Store) (a : String) :
    (forceSell env s a).2.tradingPaused = s.tradingPaused := by
  unfold forceSell
  cases h : getPosition s a with
  | none => rfl
  | some pos =>
    simp only []
    split
    · rfl
    · split <;> rfl

theorem foldl_paused {α : Type} (f : Store → α → Store)
    (hf : ∀ st a, (f st a).tradingPaused = st.tradingPaused) :
    ∀ (l : List α) (st : Store), (l.foldl f st).tradingPaused = st.tradingPaused := by
  intro l
  induction l with
  | nil => intro st; rfl
  | cons a rest ih =>
    intro st
    rw [List.foldl_cons, ih, hf]

theorem foldl_fixed {α : Type} (f : Store → α → Store)
    (l : List α) (st : Store) (hf : ∀ a ∈ l, f st a = st) :
    l.foldl f st = st := by
  induction l with
  | nil => rfl
  | cons a rest ih =>
    rw [List.foldl_cons, hf a (by simp)]
    exact ih (fun a ha => hf a (by simp [ha]))

theorem aiReview_preserves_paused (env : CycleEnv) (s : Store) :
    (aiReviewPhase env s).tradingPaused = s.tradingPaused := by
  unfold aiReviewPhase
  split
  · cases env.advice with
    | none => rfl
    | some adviceList =>
      simp only []
      refine foldl_paused _ ?_ adviceList s
      intro st adv
      split
      · cases h : s.positions.find? (fun p => p.tokenSymbol == adv.symbol) with
        | none => rfl
        | some pos => exact forceSell_preserves_paused env.swap st pos.tokenAddress
      · rfl
  · rfl

theorem aiReview_empty_positions (env : CycleEnv) (s : Store)
    (hp : s.positions = []) : aiReviewPhase env s = s := by
  unfold aiReviewPhase
  split
  · cases env.advice with
    | none => rfl
    | some adviceList =>
      simp only [hp]
      refine foldl_fixed _ adviceList s ?_
      intro adv _
      split
      · simp [List.find?]
      · rfl
  · rfl

/-- C3: while the trading-paused flag is set, a trading cycle still runs
stop-loss evaluation and the AI review, but the buy-scan portion is skipped —
the cycle returns the post-exit store unchanged by any buy; in particular a
position whose fresh price is at or below its stop price is still sold:
removed from the collection with a sell history entry appended. -/
theorem C3_paused_blocks_only_entries (env : CycleEnv) (s : Store)
    (hpause : s.tradingPaused = true) :
    tradingCycle env s = aiReviewPhase env (evaluateStopLosses env.swap s).1 ∧
    (∀ p pr, s.positions = [p] →
      env.swap.dryRun = false →
      env.swap.oracle (lowercase p.tokenAddress) = some pr →
      (env.swap.sell p.tokenAddress).success = true →
      pr ≤ (computeStopPrice (updatePrices p pr)).stopPrice →
      (tradingCycle env s).positions = [] ∧
      (tradingCycle env s).history =
        addHistoryEntry s.history
          (sellHistEntry (updatePrices p pr) pr (env.swap.sell p.tokenAddress)
            env.swap.now)) := by
  have hs2paused :
      (aiReviewPhase env (evaluateStopLosses env.swap s).1).tradingPaused = true := by
    rw [aiReview_preserves_paused, eval_preserves_paused, hpause]
  have hskip :
      tradingCycle env s = aiReviewPhase env (evaluateStopLosses env.swap s).1 := by
    simp only [tradingCycle]
    have hgate :
        entryGate env (aiReviewPhase env (evaluateStopLosses env.swap s).1) =
          .pausedCheck := by
      unfold entryGate
      rw [if_pos hs2paused]
    rw [hgate]
  refine ⟨hskip, ?_⟩
  intro p pr hp hdry hor hsucc hstop
  have heval := evalSingle_live env.swap s p pr hdry hp hor hsucc hstop
  have hempty : ((evaluateStopLosses env.swap s).1).positions = [] := by
    rw [heval]
  have hai := aiReview_empty_positions env (evaluateStopLosses env.swap s).1 hempty
  rw [hskip, hai, heval]
  exact ⟨rfl, rfl⟩

/-- Cycle environment fixture running the live swap collaborators of
`c1Env` with AI disabled. -/
def c3Env : CycleEnv :=
  { c8Env with swap := c1Env false }

/-- Paused store holding one position below its stop price. -/
def c3Store : Store :=
  { positions := [plainPos], history := [], tradingPaused := true }

theorem C3_paused_blocks_only_entries_witness :
    tradingCycle c3Env c3Store =
      aiReviewPhase c3Env (evaluateStopLosses c3Env.swap c3Store).1 ∧
    (tradingCycle c3Env c3Store).positions = [] :=
  ⟨(C3_paused_blocks_only_entries c3Env c3Store rfl).1,
   ((C3_paused_blocks_only_entries c3Env c3Store rfl).2 plainPos 1
     rfl rfl rfl rfl c1_stop_triggered).1⟩

-- ── C5 ──────────────────────────────────────────────────────────────

/-- C5: within one stop-loss pass, item failures are isolated.  An
unavailable price skips the item, leaving the whole evaluation state
untouched; a failed sell on a triggered stop leaves the position in the
collection (with only its prices refreshed) and appends nothing to history
or to the sold list, so it is retried on the next pass; and processing a
snapshot always continues with the remaining items after each item's step —
no outcome of one item aborts the loop. -/
theorem C5_per_item_isolation (env : SwapEnv) (st : EvalState) (i : ℕ)
    (pos : Position) :
    (env.oracle (lowercase pos.tokenAddress) = none →
      evalStep env st (i, pos) = st) ∧
    (∀ pr, env.oracle (lowercase pos.tokenAddress) = some pr →
      env.dryRun = false →
      (env.sell pos.tokenAddress).success = false →
      pr ≤ (computeStopPrice (updatePrices pos pr)).stopPrice →
      evalStep env st (i, pos) =
        { st with live := st.live.map (fun q => if q.1 = i then (i, updatePrices pos pr) else q) } ∧
      ((i, pos) ∈ st.live →
        (i, updatePrices pos pr) ∈ (evalStep env st (i, pos)).live)) ∧
    (∀ rest, evalLoop env ((i, pos) :: rest) st =
      evalLoop env rest (evalStep env st (i, pos))) := by
  refine ⟨?_, ?_, ?_⟩
  · intro hor
    unfold evalStep
    simp only [hor]
  · intro pr hor hdry hfail hstop
    have heq : evalStep env st (i, pos) =
        { st with live := st.live.map (fun q => if q.1 = i then (i, updatePrices pos pr) else q) } := by
      unfold evalStep
      simp only [hor]
      rw [if_pos hstop, hdry]
      simp only [Bool.false_eq_true, if_false, hfail]
    refine ⟨heq, ?_⟩
    intro hmem
    rw [heq]
    exact List.mem_map.mpr ⟨(i, pos), hmem, by simp⟩
  · intro rest
    rfl

/-- Swap environment fixture whose sells always fail. -/
def c5Env : SwapEnv :=
  { dryRun := false, oracle := fun _ => some 1, sell := fun _ => failedSwap,
    now := 0 }

/-- The same environment with the price feed unavailable. -/
def c5EnvNone : SwapEnv :=
  { c5Env with oracle := fun _ => none }

/-- Evaluation state fixture with a single live position. -/
def c5State : EvalState :=
  ⟨[(0, plainPos)], [], []⟩

theorem C5_per_item_isolation_witness :
    evalStep c5EnvNone c5State (0, plainPos) = c5State ∧
    (0, updatePrices plainPos 1) ∈ (evalStep c5Env c5State (0, plainPos)).live ∧
    evalLoop c5Env [(0, plainPos)] c5State =
      evalLoop c5Env [] (evalStep c5Env c5State (0, plainPos)) :=
  ⟨(C5_per_item_isolation c5EnvNone c5State 0 plainPos).1 rfl,
   ((C5_per_item_isolation c5Env c5State 0 plainPos).2.1 1 rfl rfl rfl
       c1_stop_triggered).2 (by simp [c5State]),
   (C5_per_item_isolation c5Env c5State 0 plainPos).2.2 []⟩

-- ── C6 ──────────────────────────────────────────────────────────────

/-- Relation between a position's value at the start of a stop-loss pass and
its in-place-updated value: the address is untouched, the highest price
never decreases, and it changes only to a strictly larger freshly fetched
price. -/
def PriceRel (env : SwapEnv) (q q2 : Position) : Prop :=
  q2.tokenAddress = q.tokenAddress ∧
  q.highestPrice ≤ q2.highestPrice ∧
  (q.highestPrice < q2.highestPrice →
    env.oracle (lowercase q.tokenAddress) = some q2.highestPrice)

theorem priceRel_refl (env : SwapEnv) (q : Position) : PriceRel env q q :=
  ⟨rfl, le_refl _, fun h => absurd h (lt_irrefl _)⟩

theorem priceRel_update (env : SwapEnv) (q : Position) (pr : ℚ)
    (hor : env.oracle (lowercase q.tokenAddress) = some pr) :
    PriceRel env q (updatePrices q pr) := by
  refine ⟨rfl, ?_, ?_⟩
  · show q.highestPrice ≤ if q.highestPrice < pr then pr else q.highestPrice
    split
    · exact le_of_lt (by assumption)
    · exact le_refl _
  · show q.highestPrice < (if q.highestPrice < pr then pr else q.highestPrice) →
      env.oracle (lowercase q.tokenAddress) =
        some (if q.highestPrice < pr then pr else q.highestPrice)
    split
    · intro _
      exact hor
    · intro hc
      exact absurd hc (lt_irrefl _)

theorem tagFrom_mem_snd {i : ℕ} {q : Position} :
    ∀ {n : ℕ} {ps : List Position}, (i, q) ∈ tagFrom n ps → q ∈ ps := by
  intro n ps
  induction ps generalizing n with
  | nil => intro h; cases h
  | cons p rest ih =>
    intro h
    simp only [tagFrom, List.mem_cons, Prod.mk.injEq] at h
    rcases h with ⟨_, hq⟩ | h
    · rw [hq]
      exact List.mem_cons_self p rest
    · exact List.mem_cons_of_mem p (ih h)

theorem tagFrom_mem_ge {i : ℕ} {q : Position} :
    ∀ {n : ℕ} {ps : List Position}, (i, q) ∈ tagFrom n ps → n ≤ i := by
  intro n ps
  induction ps generalizing n with
  | nil => intro h; cases h
  | cons p rest ih =>
    intro h
    simp only [tagFrom, List.mem_cons, Prod.mk.injEq] at h
    rcases h with ⟨hi, _⟩ | h
    · omega
    · have := ih h
      omega

theorem tagFrom_mem_unique {i : ℕ} {q q2 : Position} :
    ∀ {n : ℕ} {ps : List Position},
      (i, q) ∈ tagFrom n ps → (i, q2) ∈ tagFrom n ps → q = q2 := by
  intro n ps
  induction ps generalizing n with
  | nil => intro h; cases h
  | cons p rest ih =>
    intro h1 h2
    simp only [tagFrom, List.mem_cons, Prod.mk.injEq] at h1 h2
    rcases h1 with ⟨hi1, hq1⟩ | h1
    · rcases h2 with ⟨_, hq2⟩ | h2
      · rw [hq1, hq2]
      · have := tagFrom_mem_ge h2
        omega
    · rcases h2 with ⟨hi2, _⟩ | h2
      · have := tagFrom_mem_ge h1
        omega
      · exact ih h1 h2

theorem tagFrom_map_snd : ∀ (n : ℕ) (ps : List Position),
    (tagFrom n ps).map Prod.snd = ps := by
  intro n ps
  induction ps generalizing n with
  | nil => rfl
  | cons p rest ih =>
    simp only [tagFrom, List.map_cons, ih]

/-- The case-insensitive address keys of a tagged live array. -/
def liveKeys (live : List (ℕ × Position)) : List String :=
  live.map (fun x => addrKey x.2)

/-- Every entry of the live array descends from the same-id snapshot entry
through a price refresh. -/
def LiveInv (env : SwapEnv) (tagged live : List (ℕ × Position)) : Prop :=
  ∀ i q2, (i, q2) ∈ live → ∃ q, (i, q) ∈ tagged ∧ PriceRel env q q2

theorem removeLive_sublist (live : List (ℕ × Position)) (a : String) :
    (removeLiveByAddr live a).Sublist live := by
  unfold removeLiveByAddr
  split
  · exact List.Sublist.refl _
  · exact List.eraseIdx_sublist _ _

theorem liveKeys_sublist {l l2 : List (ℕ × Position)} (h : l2.Sublist l) :
    (liveKeys l2).Sublist (liveKeys l) :=
  h.map _

theorem evalStep_inv (env : SwapEnv) (tagged : List (ℕ × Position))
    (huniq : ∀ i q q2, (i, q) ∈ tagged → (i, q2) ∈ tagged → q = q2)
    (st : EvalState) (item : ℕ × Position) (hitem : item ∈ tagged)
    (hinv : LiveInv env tagged st.live)
    (hkeys : (liveKeys st.live).Sublist (liveKeys tagged)) :
    LiveInv env tagged (evalStep env st item).live ∧
      (liveKeys (evalStep env st item).live).Sublist (liveKeys tagged) := by
  have hitem2 : (item.1, item.2) ∈ tagged := hitem
  unfold evalStep
  cases hor : env.oracle (lowercase item.2.tokenAddress) with
  | none => exact ⟨hinv, hkeys⟩
  | some pr =>
    simp only []
    have hinv1 : LiveInv env tagged
        (st.live.map (fun q => if q.1 = item.1 then (item.1, updatePrices item.2 pr) else q)) := by
      intro i q2 hq2
      obtain ⟨x, hx, hfx⟩ := List.mem_map.mp hq2
      by_cases hxi : x.1 = item.1
      · rw [if_pos hxi] at hfx
        have hi : item.1 = i := congrArg Prod.fst hfx
        have hq : updatePrices item.2 pr = q2 := congrArg Prod.snd hfx
        subst hi
        subst hq
        exact ⟨item.2, hitem2, priceRel_update env item.2 pr hor⟩
      · rw [if_neg hxi] at hfx
        have hi : x.1 = i := congrArg Prod.fst hfx
        have hq : x.2 = q2 := congrArg Prod.snd hfx
        subst hi
        subst hq
        exact hinv x.1 x.2 (by simpa using hx)
    have hkeys1 : liveKeys
        (st.live.map (fun q => if q.1 = item.1 then (item.1, updatePrices item.2 pr) else q)) =
        liveKeys st.live := by
      unfold liveKeys
      rw [List.map_map]
      refine List.map_congr_left ?_
      intro x hx
      by_cases hxi : x.1 = item.1
      · simp only [Function.comp, hxi, if_pos]
        obtain ⟨q0, hq0, hrel⟩ := hinv x.1 x.2 (by simpa using hx)
        have hq0item : q0 = item.2 := huniq x.1 q0 item.2 hq0 (hxi ▸ hitem2)
        show addrKey (updatePrices item.2 pr) = addrKey x.2
        have h1 : addrKey (updatePrices item.2 pr) = addrKey item.2 := rfl
        have h2 : addrKey x.2 = addrKey q0 := by
          unfold addrKey
          rw [hrel.1]
        rw [h1, h2, hq0item]
      · simp [Function.comp, hxi]
    split
    · split
      · exact ⟨hinv1, hkeys1 ▸ hkeys⟩
      · split
        · constructor
          · intro i q2 hq2
            exact hinv1 i q2 ((removeLive_sublist _ _).subset hq2)
          · exact ((liveKeys_sublist (removeLive_sublist _ _)).trans
              (hkeys1 ▸ hkeys))
        · exact ⟨hinv1, hkeys1 ▸ hkeys⟩
    · exact ⟨hinv1, hkeys1 ▸ hkeys⟩

theorem evalLoop_inv (env : SwapEnv) (tagged : List (ℕ × Position))
    (huniq : ∀ i q q2, (i, q) ∈ tagged → (i, q2) ∈ tagged → q = q2) :
    ∀ (items : List (ℕ × Position)) (st : EvalState),
      (∀ x ∈ items, x ∈ tagged) →
      LiveInv env tagged st.live →
      (liveKeys st.live).Sublist (liveKeys tagged) →
      LiveInv env tagged (evalLoop env items st).live ∧
        (liveKeys (evalLoop env items st).live).Sublist (liveKeys tagged) := by
  intro items
  induction items with
  | nil => exact fun st _ h1 h2 => ⟨h1, h2⟩
  | cons x rest ih =>
    intro st hsub h1 h2
    have hstep := evalStep_inv env tagged huniq st x (hsub x (by simp)) h1 h2
    exact ih (evalStep env st x) (fun y hy => hsub y (by simp [hy])) hstep.1 hstep.2

theorem liveKeys_tagFrom (n : ℕ) (ps : List Position) :
    liveKeys (tagFrom n ps) = ps.map addrKey := by
  unfold liveKeys
  have : (fun x : ℕ × Position => addrKey x.2) = addrKey ∘ Prod.snd := rfl
  rw [this, ← List.map_map, tagFrom_map_snd]

/-- One stop-loss pass relates every surviving position to a position of the
input store through `PriceRel`, and can only drop address keys, never add or
reorder them. -/
theorem eval_pass_rel (env : SwapEnv) (s : Store) :
    (∀ q2 ∈ (evaluateStopLosses env s).1.positions,
      ∃ q ∈ s.positions, PriceRel env q q2) ∧
    ((evaluateStopLosses env s).1.positions.map addrKey).Sublist
      (s.positions.map addrKey) := by
  unfold evaluateStopLosses
  split
  · exact ⟨fun q2 hq2 => ⟨q2, hq2, priceRel_refl env q2⟩, List.Sublist.refl _⟩
  · simp only []
    have huniq : ∀ i q q2, (i, q) ∈ tagFrom 0 s.positions →
        (i, q2) ∈ tagFrom 0 s.positions → q = q2 :=
      fun _ _ _ h1 h2 => tagFrom_mem_unique h1 h2
    have hinv0 : LiveInv env (tagFrom 0 s.positions) (tagFrom 0 s.positions) :=
      fun i q2 h => ⟨q2, h, priceRel_refl env q2⟩
    have hloop := evalLoop_inv env (tagFrom 0 s.positions) huniq
      (tagFrom 0 s.positions) ⟨tagFrom 0 s.positions, s.history, []⟩
      (fun x hx => hx) hinv0 (List.Sublist.refl _)
    constructor
    · intro q2 hq2
      obtain ⟨x, hx, hfx⟩ := List.mem_map.mp hq2
      have hx2 : (x.1, q2) ∈ (evalLoop env (tagFrom 0 s.positions)
          ⟨tagFrom 0 s.positions, s.history, []⟩).live := by
        rw [← hfx]
        simpa using hx
      obtain ⟨q, htag, hrel⟩ := hloop.1 x.1 q2 hx2
      exact ⟨q, tagFrom_mem_snd htag, hrel⟩
    · have h1 : ((evalLoop env (tagFrom 0 s.positions)
          ⟨tagFrom 0 s.positions, s.history, []⟩).live.map Prod.snd).map addrKey =
          liveKeys (evalLoop env (tagFrom 0 s.positions)
            ⟨tagFrom 0 s.positions, s.history, []⟩).live := by
        unfold liveKeys
        rw [List.map_map]
        rfl
      rw [h1, ← liveKeys_tagFrom 0 s.positions]
      exact hloop.2

/-- Iterated stop-loss passes, each against its own price feed. -/
def runPasses (envs : List SwapEnv) (s : Store) : Store :=
  envs.foldl (fun st env => (evaluateStopLosses env st).1) s

theorem runPasses_keys (envs : List SwapEnv) :
    ∀ s : Store, ((runPasses envs s).positions.map addrKey).Sublist
      (s.positions.map addrKey) := by
  induction envs with
  | nil => exact fun s => List.Sublist.refl _
  | cons e es ih =>
    intro s
    exact (ih (evaluateStopLosses e s).1).trans (eval_pass_rel e s).2

theorem runPasses_monotone (envs : List SwapEnv) :
    ∀ (s : Store), (s.positions.map addrKey).Nodup →
      ∀ q q2, q2 ∈ (runPasses envs s).positions → q ∈ s.positions →
        addrKey q = addrKey q2 → q.highestPrice ≤ q2.highestPrice := by
  induction envs with
  | nil =>
    intro s hnd q q2 hq2 hq hk
    have : q = q2 := List.inj_on_of_nodup_map hnd hq hq2 hk
    rw [this]
  | cons e es ih =>
    intro s hnd q q2 hq2 hq hk
    have hnd1 : ((evaluateStopLosses e s).1.positions.map addrKey).Nodup :=
      (eval_pass_rel e s).2.nodup hnd
    have hkmem : addrKey q2 ∈
        (runPasses es (evaluateStopLosses e s).1).positions.map addrKey :=
      List.mem_map_of_mem _ hq2
    have hkmem1 : addrKey q2 ∈ (evaluateStopLosses e s).1.positions.map addrKey :=
      (runPasses_keys es (evaluateStopLosses e s).1).subset hkmem
    obtain ⟨q1, hq1mem, hq1key⟩ := List.mem_map.mp hkmem1
    have h12 : q1.highestPrice ≤ q2.highestPrice :=
      ih (evaluateStopLosses e s).1 hnd1 q1 q2 hq2 hq1mem hq1key
    obtain ⟨q0, hq0mem, hrel⟩ := (eval_pass_rel e s).1 q1 hq1mem
    have hq0key : addrKey q0 = addrKey q := by
      have h2 : addrKey q1 = addrKey q0 := by
        unfold addrKey
        rw [hrel.1]
      rw [← h2, hq1key]
      exact hk.symm
    have hq0q : q0 = q := List.inj_on_of_nodup_map hnd hq0mem hq hq0key
    calc q.highestPrice = q0.highestPrice := by rw [hq0q]
      _ ≤ q1.highestPrice := hrel.2.1
      _ ≤ q2.highestPrice := h12

/-- C6: across any sequence of stop-loss evaluation passes (each against an
arbitrary price feed), the stored `highestPrice` of a position — identified
by its case-insensitive address, unique within the store — never decreases;
and within one pass it changes only when the freshly fetched price strictly
exceeds the stored value, in which case it becomes exactly that fetched
price. -/
theorem C6_highestPrice_monotone :
    (∀ (envs : List SwapEnv) (s : Store) (q q2 : Position),
      (s.positions.map addrKey).Nodup →
      q2 ∈ (runPasses envs s).positions →
      q ∈ s.positions → addrKey q = addrKey q2 →
      q.highestPrice ≤ q2.highestPrice) ∧
    (∀ (env : SwapEnv) (s : Store) (q q2 : Position),
      (s.positions.map addrKey).Nodup →
      q2 ∈ (evaluateStopLosses env s).1.positions →
      q ∈ s.positions → addrKey q = addrKey q2 →
      q.highestPrice < q2.highestPrice →
      env.oracle (addrKey q) = some q2.highestPrice) := by
  constructor
  · exact fun envs s q q2 hnd hq2 hq hk => runPasses_monotone envs s hnd q q2 hq2 hq hk
  · intro env s q q2 hnd hq2 hq hk hlt
    obtain ⟨q0, hq0mem, hrel⟩ := (eval_pass_rel env s).1 q2 hq2
    have hq0key : addrKey q0 = addrKey q := by
      have h2 : addrKey q2 = addrKey q0 := by
        unfold addrKey
        rw [hrel.1]
      rw [← h2]
      exact hk.symm
    have hq0q : q0 = q := List.inj_on_of_nodup_map hnd hq0mem hq hq0key
    rw [← hq0q]
    exact hrel.2.2 (hq0q ▸ hlt)

/-- Price feed fixture reporting 3 for every address. -/
def c6Env : SwapEnv :=
  { dryRun := false, oracle := fun _ => some 3, sell := fun _ => failedSwap,
    now := 0 }

theorem c6_stop_not_triggered :
    ¬ (3 : ℚ) ≤ (computeStopPrice (updatePrices plainPos 3)).stopPrice := by
  norm_num [computeStopPrice, updatePrices, findTrail, STOP_LOSS_TIERS, plainPos,
    c2Pos]

theorem C6_highestPrice_monotone_witness :
    plainPos.highestPrice ≤ (updatePrices plainPos 3).highestPrice ∧
    c6Env.oracle (addrKey plainPos) = some (updatePrices plainPos 3).highestPrice := by
  have hrun : runPasses [c6Env] c7Store =
      { c7Store with positions := [updatePrices plainPos 3] } := by
    show (evaluateStopLosses c6Env c7Store).1 = _
    rw [evalSingle_hold c6Env c7Store plainPos 3 rfl rfl c6_stop_not_triggered]
  have hmem : updatePrices plainPos 3 ∈ (runPasses [c6Env] c7Store).positions := by
    rw [hrun]
    exact List.mem_singleton.mpr rfl
  have hmem1 : updatePrices plainPos 3 ∈
      (evaluateStopLosses c6Env c7Store).1.positions := by
    have h := hrun
    rw [show runPasses [c6Env] c7Store = (evaluateStopLosses c6Env c7Store).1 from rfl] at h
    rw [h]
    exact List.mem_singleton.mpr rfl
  have hlt : plainPos.highestPrice < (updatePrices plainPos 3).highestPrice := by
    norm_num [updatePrices, plainPos, c2Pos]
  constructor
  · exact C6_highestPrice_monotone.1 [c6Env] c7Store plainPos (updatePrices plainPos 3)
      (by simp [c7Store]) hmem (by simp [c7Store]) rfl
  · exact C6_highestPrice_monotone.2 c6Env c7Store plainPos (updatePrices plainPos 3)
      (by simp [c7Store]) hmem1 (by simp [c7Store]) rfl hlt

end ClawedTrader
